import Mathlib

/-!
Verification development for the NeptuneOS tooltip migration script
(update_html.py). The script reads index.html, applies a fixed ordered
sequence of fifteen literal substring replacements (Python str.replace,
which rewrites all leftmost non-overlapping occurrences), and writes the
result back to the same path. Documents are modelled as List Char and
each replacement literal below is transcribed byte-for-byte from the
source.
-/

/-- One scan step of Python str.replace: walk the document left to right;
whenever the search literal is a prefix of the remaining document, emit the
replacement and continue after the matched occurrence, otherwise copy one
character. The Nat argument is structural fuel; replaceL always supplies
the document length, which bounds the number of steps. -/
def replaceGo (p r : List Char) : Nat -> List Char -> List Char
  | _, [] => []
  | 0, l => l
  | fuel + 1, c :: rest =>
    if p.isPrefixOf (c :: rest) then
      r ++ replaceGo p r fuel (rest.drop (p.length - 1))
    else
      c :: replaceGo p r fuel rest

/-- Python str.replace(p, r) on a document: replaces all leftmost
non-overlapping occurrences of p by r. -/
def replaceL (p r d : List Char) : List Char :=
  replaceGo p r d.length d

def pat01 : String := "<div id=\"universal-tooltip\" class=\"universal-tooltip hidden\">\n            <div class=\"tooltip-title\" id=\"tt-title\"></div>\n            <div class=\"tooltip-desc\" id=\"tt-desc\"></div>\n        </div>"

def rep01 : String := "<div id=\"universal-tooltip\" class=\"universal-tooltip hidden\">\n            <div class=\"tooltip-title\" id=\"tt-title\"></div>\n            <div class=\"tooltip-line\" id=\"tt-line1\"></div>\n            <div class=\"tooltip-line\" id=\"tt-line2\"></div>\n            <div class=\"tooltip-line\" id=\"tt-line3\"></div>\n        </div>"

def pat02 : String := "data-tooltip=\"Sector Stability\"\n                                    data-tooltip-desc=\"Aggregated probabilistic risk score across KP segments.\""

def rep02 : String := "data-tooltip=\"Sector Stability\"\n                                    data-tooltip-short=\"Aggregated probabilistic risk score.\" data-tooltip-tech=\"Derived from Bayesian risk modeling across KP segments.\""

def pat03 : String := "data-tooltip=\"Sector Stability\" data-tooltip-desc=\"Aggregated probabilistic risk score across KP segments.\""

def rep03 : String := "data-tooltip=\"Sector Stability\" data-tooltip-short=\"Aggregated probabilistic risk score.\" data-tooltip-tech=\"Derived from Bayesian risk modeling across KP segments.\""

def pat04 : String := "data-tooltip=\"Hazard Engine\"\n                            data-tooltip-desc=\"Inject and simulate physical failure events.\""

def rep04 : String := "data-tooltip=\"Hazard Engine\"\n                            data-tooltip-short=\"Inject simulated failure scenarios.\" data-tooltip-tech=\"Used to test system detection and response capability.\""

def pat05 : String := "data-tooltip=\"Hazard Engine\" data-tooltip-desc=\"Inject and simulate physical failure events.\""

def rep05 : String := "data-tooltip=\"Hazard Engine\" data-tooltip-short=\"Inject simulated failure scenarios.\" data-tooltip-tech=\"Used to test system detection and response capability.\""

def pat06 : String := "<span>BIO-ALGAE HARVEST</span>"

def rep06 : String := "<span class=\"neptune-tooltip\" data-tooltip=\"Bio-Energy Harvest\" data-tooltip-short=\"Marine algae-based supplemental energy system.\" data-tooltip-tech=\"Reduces reliance on external power sources.\">BIO-ALGAE HARVEST</span>"

def pat07 : String := "<div class=\"accordion-item\" data-panel=\"fleet-panel\">"

def rep07 : String := "<div class=\"accordion-item neptune-tooltip\" data-panel=\"fleet-panel\" data-tooltip=\"AUV Fleet\" data-tooltip-short=\"Monitor AUV battery, readiness, and mission status.\" data-tooltip-tech=\"Used to assess deployment capability.\">"

def pat08 : String := "<button id=\"btn-approve-multi\" class=\"btn critical-btn\">Approve Isolation + Multi-AUV\n                        Deployment</button>"

def rep08 : String := "<button id=\"btn-approve-multi\" class=\"btn critical-btn neptune-tooltip\" data-tooltip=\"Isolation Control\" data-tooltip-short=\"Temporarily close upstream and downstream valves.\" data-tooltip-tech=\"Prevents escalation of structural damage.\" data-tooltip-use=\"Execute immediately upon critical threshold breach.\">Approve Isolation + Multi-AUV \n                        Deployment</button>"

def pat09 : String := "<button id=\"btn-approve-multi\" class=\"btn critical-btn\">Approve Isolation + Multi-AUV Deployment</button>"

def rep09 : String := "<button id=\"btn-approve-multi\" class=\"btn critical-btn neptune-tooltip\" data-tooltip=\"Isolation Control\" data-tooltip-short=\"Temporarily close upstream and downstream valves.\" data-tooltip-tech=\"Prevents escalation of structural damage.\" data-tooltip-use=\"Execute immediately upon critical threshold breach.\">Approve Isolation + Multi-AUV Deployment</button>"

def pat10 : String := "data-tooltip=\"Global Curvature Mode\" data-tooltip-desc=\"View the entire 1900km corridor.\""

def rep10 : String := "data-tooltip=\"Global Curvature Mode\" data-tooltip-short=\"Switch camera and system visualization modes.\" data-tooltip-tech=\"Changes operational view without affecting system logic.\" data-tooltip-use=\"View the entire 1900km corridor.\""

def pat11 : String := "data-tooltip=\"Sector Mode\"\n                        data-tooltip-desc=\"Zoom to specific operating sectors.\""

def rep11 : String := "data-tooltip=\"Sector Mode\"\n                        data-tooltip-short=\"Switch camera and system visualization modes.\" data-tooltip-tech=\"Changes operational view without affecting system logic.\" data-tooltip-use=\"Zoom to specific operating sectors.\""

def pat12 : String := "data-tooltip=\"Sector Mode\" data-tooltip-desc=\"Zoom to specific operating sectors.\""

def rep12 : String := "data-tooltip=\"Sector Mode\" data-tooltip-short=\"Switch camera and system visualization modes.\" data-tooltip-tech=\"Changes operational view without affecting system logic.\" data-tooltip-use=\"Zoom to specific operating sectors.\""

def pat13 : String := "data-tooltip=\"Inspection Mode\"\n                        data-tooltip-desc=\"Close-up seabed visualization.\""

def rep13 : String := "data-tooltip=\"Inspection Mode\"\n                        data-tooltip-short=\"Switch camera and system visualization modes.\" data-tooltip-tech=\"Changes operational view without affecting system logic.\" data-tooltip-use=\"Close-up seabed visualization.\""

def pat14 : String := "data-tooltip=\"Inspection Mode\" data-tooltip-desc=\"Close-up seabed visualization.\""

def rep14 : String := "data-tooltip=\"Inspection Mode\" data-tooltip-short=\"Switch camera and system visualization modes.\" data-tooltip-tech=\"Changes operational view without affecting system logic.\" data-tooltip-use=\"Close-up seabed visualization.\""

def pat15 : String := "data-tooltip-desc"

def rep15 : String := "data-tooltip-short"

/-- The fixed ordered rule list of update_html.py, in program order; the
generic data-tooltip-desc sweep is the final entry. -/
def rules : List (List Char × List Char) :=
  [(pat01.data, rep01.data), (pat02.data, rep02.data), (pat03.data, rep03.data),
   (pat04.data, rep04.data), (pat05.data, rep05.data), (pat06.data, rep06.data),
   (pat07.data, rep07.data), (pat08.data, rep08.data), (pat09.data, rep09.data),
   (pat10.data, rep10.data), (pat11.data, rep11.data), (pat12.data, rep12.data),
   (pat13.data, rep13.data), (pat14.data, rep14.data), (pat15.data, rep15.data)]

/-- Apply one replacement rule to the current document state. -/
def applyRule (d : List Char) (pr : List Char × List Char) : List Char :=
  replaceL pr.1 pr.2 d

/-- The whole rewrite as a fold of the rule list over the document. -/
def pipeline (d : List Char) : List Char :=
  rules.foldl applyRule d

/-- The source program as written: fifteen successive reassignments of the
html variable, one replace call each, in source order. -/
def updateHtml (d : List Char) : List Char :=
  replaceL pat15.data rep15.data
    (replaceL pat14.data rep14.data
      (replaceL pat13.data rep13.data
        (replaceL pat12.data rep12.data
          (replaceL pat11.data rep11.data
            (replaceL pat10.data rep10.data
              (replaceL pat09.data rep09.data
                (replaceL pat08.data rep08.data
                  (replaceL pat07.data rep07.data
                    (replaceL pat06.data rep06.data
                      (replaceL pat05.data rep05.data
                        (replaceL pat04.data rep04.data
                          (replaceL pat03.data rep03.data
                            (replaceL pat02.data rep02.data
                              (replaceL pat01.data rep01.data d))))))))))))))

/-- The rule list with the generic sweep moved to the front, used to state
order sensitivity. -/
def rulesSweepFirst : List (List Char × List Char) :=
  rules.drop 14 ++ rules.take 14

/-- The rewrite with the generic sweep applied before the context-specific
rules. -/
def pipelineSweepFirst (d : List Char) : List Char :=
  rulesSweepFirst.foldl applyRule d

/-- Whitespace test used for comparing the two physical encodings of a
dual-variant rule target. -/
def isWS (c : Char) : Bool :=
  c = ' ' || c = '\n' || c = '\t' || c = '\r'

/-- Helper for normWS; the flag records whether the previous character was
whitespace, so each maximal whitespace run emits exactly one space. -/
def normGo : Bool → List Char → List Char
  | _, [] => []
  | prev, c :: rest =>
    if isWS c then
      if prev then normGo true rest else ' ' :: normGo true rest
    else
      c :: normGo false rest

/-- Collapse every maximal run of whitespace characters to a single space. -/
def normWS (l : List Char) : List Char :=
  normGo false l

/-- The I/O error kinds that can abort the script: the file is missing, not
accessible, or not decodable in the fixed encoding. -/
inductive IOErr where
  | fileNotFound : IOErr
  | permissionDenied : IOErr
  | encodingError : IOErr

/-- The whole program run, with the outcome of the initial read made
explicit: a read or decode failure propagates unchanged (the script installs
no handler), otherwise the pure rewrite runs and its result is what gets
written. -/
def runProgram (readResult : Except IOErr (List Char)) : Except IOErr (List Char) :=
  match readResult with
  | Except.error e => Except.error e
  | Except.ok html => Except.ok (pipeline html)

/-- Contents of the target file after the run: unchanged when the run fails
before the write, otherwise the transformed document. -/
def finalFile (initial : List Char) (readResult : Except IOErr (List Char)) : List Char :=
  match runProgram readResult with
  | Except.error _ => initial
  | Except.ok out => out

/-- Path in the opening read call of the script. -/
def readPath : String := "index.html"

/-- Path in the closing write call of the script. -/
def writePath : String := "index.html"

/-- Encoding named in the read call. -/
def readEncoding : String := "utf-8"

/-- Encoding named in the write call. -/
def writeEncoding : String := "utf-8"

/-- Effect of opening the target in write mode and writing the new text: the
prior contents are fully discarded. -/
def overwriteWith (_oldContents newContents : List Char) : List Char :=
  newContents


theorem replaceGo_nil (p r : List Char) (fuel : Nat) : replaceGo p r fuel [] = [] := by
  cases fuel <;> rfl

theorem replaceGo_succ (p r : List Char) (fuel : Nat) (c : Char) (rest : List Char) :
    replaceGo p r (fuel + 1) (c :: rest) =
      if p.isPrefixOf (c :: rest) then r ++ replaceGo p r fuel (rest.drop (p.length - 1))
      else c :: replaceGo p r fuel rest := rfl

theorem replaceGo_fuel (p r : List Char) :
    ∀ n m d, d.length ≤ n → d.length ≤ m → replaceGo p r n d = replaceGo p r m d := by
  intro n
  induction n with
  | zero =>
    intro m d hn _
    have hd : d = [] := List.eq_nil_of_length_eq_zero (Nat.le_zero.mp hn)
    subst hd
    rw [replaceGo_nil, replaceGo_nil]
  | succ n ih =>
    intro m d hn hm
    cases d with
    | nil => rw [replaceGo_nil, replaceGo_nil]
    | cons c rest =>
      simp only [List.length_cons] at hn hm
      cases m with
      | zero => omega
      | succ m' =>
        rw [replaceGo_succ, replaceGo_succ]
        by_cases hp : p.isPrefixOf (c :: rest) = true
        · rw [if_pos hp, if_pos hp]
          congr 1
          apply ih
          · rw [List.length_drop]; omega
          · rw [List.length_drop]; omega
        · rw [if_neg hp, if_neg hp]
          congr 1
          apply ih <;> omega

theorem replaceL_nil (p r : List Char) : replaceL p r [] = [] := rfl

theorem replaceL_cons_neg {p : List Char} (r : List Char) {c : Char} {rest : List Char}
    (h : ¬ p.isPrefixOf (c :: rest) = true) :
    replaceL p r (c :: rest) = c :: replaceL p r rest := by
  unfold replaceL
  rw [show (c :: rest).length = rest.length + 1 from rfl, replaceGo_succ, if_neg h]

theorem replaceL_cons_pos {p : List Char} (r : List Char) {c : Char} {rest : List Char}
    (h : p.isPrefixOf (c :: rest) = true) :
    replaceL p r (c :: rest) = r ++ replaceL p r (rest.drop (p.length - 1)) := by
  unfold replaceL
  rw [show (c :: rest).length = rest.length + 1 from rfl, replaceGo_succ, if_pos h]
  congr 1
  apply replaceGo_fuel
  · rw [List.length_drop]; omega
  · exact Nat.le_refl _

theorem pre_sub {l₁ l₂ : List Char} (h : l₁ <+: l₂) : l₁ <:+: l₂ := by
  obtain ⟨t, ht⟩ := h
  exact ⟨[], t, by simpa using ht⟩

theorem sub_cons {l₁ l₂ : List Char} (a : Char) (h : l₁ <:+: l₂) : l₁ <:+: a :: l₂ := by
  obtain ⟨s, t, hst⟩ := h
  exact ⟨a :: s, t, by simp [hst]⟩

theorem suf_cons {l₁ l₂ : List Char} (a : Char) (h : l₁ <:+ l₂) : l₁ <:+ a :: l₂ := by
  obtain ⟨u, hu⟩ := h
  exact ⟨a :: u, by simp [hu]⟩

theorem sub_append_of_right {l B : List Char} (A : List Char) (h : l <:+: B) : l <:+: A ++ B := by
  obtain ⟨s, t, hst⟩ := h
  exact ⟨A ++ s, t, by simp [← hst, List.append_assoc]⟩

theorem sub_append_of_left {l A : List Char} (B : List Char) (h : l <:+: A) : l <:+: A ++ B := by
  obtain ⟨s, t, hst⟩ := h
  exact ⟨s, t ++ B, by simp [← hst, List.append_assoc]⟩

theorem sub_trans {l₁ l₂ l₃ : List Char} (h : l₁ <:+: l₂) (h2 : l₂ <:+: l₃) : l₁ <:+: l₃ := by
  obtain ⟨s, t, hst⟩ := h
  obtain ⟨u, v, huv⟩ := h2
  exact ⟨u ++ s, t ++ v, by simp [← huv, ← hst, List.append_assoc]⟩

theorem replaceL_of_not_sub {p d : List Char} (r : List Char) (h : ¬ p <:+: d) :
    replaceL p r d = d := by
  induction d with
  | nil => exact replaceL_nil p r
  | cons c rest ih =>
    have hm : ¬ p.isPrefixOf (c :: rest) = true := by
      intro hc
      exact h (pre_sub (List.isPrefixOf_iff_prefix.mp hc))
    rw [replaceL_cons_neg r hm, ih (fun hc => h (sub_cons c hc))]

theorem pre_append_cases {q A B : List Char} (h : q <+: A ++ B) :
    q <+: A ∨ ∃ q₂, q = A ++ q₂ ∧ q₂ <+: B := by
  induction A generalizing q with
  | nil => exact Or.inr ⟨q, by simp, by simpa using h⟩
  | cons a A2 ih =>
    cases q with
    | nil => exact Or.inl List.nil_prefix
    | cons b q2 =>
      rw [List.cons_append] at h
      obtain ⟨hb, hq2⟩ := List.cons_prefix_cons.mp h
      subst hb
      rcases ih hq2 with h1 | ⟨q₃, rfl, h2⟩
      · exact Or.inl (List.cons_prefix_cons.mpr ⟨rfl, h1⟩)
      · exact Or.inr ⟨q₃, by simp, h2⟩

theorem sub_append_cases {q A B : List Char} (h : q <:+: A ++ B) :
    q <:+: A ∨ q <:+: B ∨
      ∃ q₁ q₂, q = q₁ ++ q₂ ∧ q₁ ≠ [] ∧ q₂ ≠ [] ∧ q₁ <:+ A ∧ q₂ <+: B := by
  induction A generalizing q with
  | nil => simp only [List.nil_append] at h; exact Or.inr (Or.inl h)
  | cons a A2 ih =>
    rw [List.cons_append] at h
    rcases List.infix_cons_iff.mp h with hpre | hinf
    · cases q with
      | nil => exact Or.inl ⟨[], a :: A2, by simp⟩
      | cons b q2 =>
        obtain ⟨hb, hq2⟩ := List.cons_prefix_cons.mp hpre
        subst hb
        rcases pre_append_cases hq2 with h1 | ⟨q₃, rfl, h2⟩
        · exact Or.inl (pre_sub (List.cons_prefix_cons.mpr ⟨rfl, h1⟩))
        · cases q₃ with
          | nil => exact Or.inl (by simp)
          | cons e q₄ =>
            refine Or.inr (Or.inr ⟨b :: A2, e :: q₄, by simp, by simp, by simp, ?_, h2⟩)
            exact List.suffix_rfl
    · rcases ih hinf with h1 | h2 | ⟨q₁, q₂, rfl, hn1, hn2, hs, hp2⟩
      · exact Or.inl (sub_cons a h1)
      · exact Or.inr (Or.inl h2)
      · exact Or.inr (Or.inr ⟨q₁, q₂, rfl, hn1, hn2, suf_cons a hs, hp2⟩)

/-- Decidable occurrence check: pat occurs as a contiguous substring of l. -/
def containsSub (pat : List Char) : List Char → Bool
  | [] => pat.isEmpty
  | c :: rest => pat.isPrefixOf (c :: rest) || containsSub pat rest

/-- Decidable check that no nonempty suffix of r begins q. -/
def sufPreFree : List Char → List Char → Bool
  | [], _ => true
  | c :: rest, q => !((c :: rest).isPrefixOf q) && sufPreFree rest q

/-- The four non-interference conditions between a replacement text r and a
search literal q: q does not occur in r, r does not occur in q, no nonempty
suffix of r starts q, and no nonempty suffix of q starts r. Together they
mean an occurrence of q in a document built by splicing copies of r between
q-free chunks is impossible. -/
def sideCondB (r q : List Char) : Bool :=
  !(containsSub q r) && !(containsSub r q) && sufPreFree r q && sufPreFree q r

/-- A rule is safe against search literal q: its search text is nonempty and
its replacement text satisfies the non-interference conditions for q. -/
def pairOK (q : List Char) (pr : List Char × List Char) : Bool :=
  !(pr.1.isEmpty) && sideCondB pr.2 q

theorem containsSub_iff (pat : List Char) : ∀ l : List Char, containsSub pat l = true ↔ pat <:+: l := by
  intro l
  induction l with
  | nil =>
    simp only [containsSub, List.isEmpty_iff, List.infix_nil]
  | cons c rest ih =>
    simp only [containsSub, Bool.or_eq_true, List.isPrefixOf_iff_prefix, ih,
      List.infix_cons_iff]

theorem sufPreFree_iff (r q : List Char) :
    sufPreFree r q = true ↔ ∀ s : List Char, s <:+ r → s ≠ [] → ¬ s <+: q := by
  induction r with
  | nil =>
    constructor
    · intro _ s hs hne
      rw [List.suffix_nil] at hs
      exact absurd hs hne
    · intro _; rfl
  | cons c rest ih =>
    simp only [sufPreFree, Bool.and_eq_true, Bool.not_eq_true', ih]
    constructor
    · rintro ⟨hhead, htail⟩ s hs hne
      rcases List.suffix_cons_iff.mp hs with rfl | hs2
      · intro hc
        rw [List.isPrefixOf_iff_prefix.mpr hc] at hhead
        exact Bool.true_eq_false.mp hhead
      · exact htail s hs2 hne
    · intro h
      refine ⟨?_, fun s hs hne => h s (List.suffix_cons_iff.mpr (Or.inr hs)) hne⟩
      by_cases hb : (c :: rest).isPrefixOf q = true
      · exact absurd (List.isPrefixOf_iff_prefix.mp hb)
          (h (c :: rest) List.suffix_rfl (by simp))
      · exact Bool.eq_false_iff.mpr hb

theorem pairOK_spec {q : List Char} {pr : List Char × List Char} (h : pairOK q pr = true) :
    pr.1 ≠ [] ∧ ¬ q <:+: pr.2 ∧ ¬ pr.2 <:+: q ∧
      (∀ s : List Char, s <:+ pr.2 → s ≠ [] → ¬ s <+: q) ∧
      (∀ s : List Char, s <+: pr.2 → s ≠ [] → ¬ s <:+ q) := by
  simp only [pairOK, sideCondB, Bool.and_eq_true, Bool.not_eq_true'] at h
  obtain ⟨hne, ⟨⟨hqr, hrq⟩, hsp⟩, hps⟩ := h
  refine ⟨?_, ?_, ?_, ?_, ?_⟩
  · intro hc; rw [hc] at hne; exact Bool.true_eq_false.mp hne
  · intro hc; rw [(containsSub_iff q pr.2).mpr hc] at hqr; exact Bool.true_eq_false.mp hqr
  · intro hc; rw [(containsSub_iff pr.2 q).mpr hc] at hrq; exact Bool.true_eq_false.mp hrq
  · exact (sufPreFree_iff pr.2 q).mp hsp
  · intro s hsr hne hsq
    exact (sufPreFree_iff q pr.2).mp hps s hsq hne hsr

/-- Concatenate chunks with a separator between consecutive chunks. -/
def interc (sep : List Char) : List (List Char) → List Char
  | [] => []
  | [c] => c
  | c :: c2 :: cs => c ++ sep ++ interc sep (c2 :: cs)

theorem interc_single (sep c : List Char) : interc sep [c] = c := rfl

theorem interc_cons2 (sep c c2 : List Char) (cs : List (List Char)) :
    interc sep (c :: c2 :: cs) = c ++ sep ++ interc sep (c2 :: cs) := rfl

theorem head_pre_interc (sep c : List Char) (cs : List (List Char)) :
    c <+: interc sep (c :: cs) := by
  cases cs with
  | nil => exact List.prefix_rfl
  | cons c2 cs2 =>
    rw [interc_cons2, List.append_assoc]
    exact List.prefix_append c _

theorem mem_interc_sub (sep : List Char) :
    ∀ (cs : List (List Char)) (c : List Char), c ∈ cs → c <:+: interc sep cs := by
  intro cs
  induction cs with
  | nil => intro c hc; exact absurd hc (List.not_mem_nil c)
  | cons c0 cs2 ih =>
    intro c hc
    rcases List.mem_cons.mp hc with rfl | hc2
    · exact pre_sub (head_pre_interc sep c cs2)
    · cases cs2 with
      | nil => exact absurd hc2 (List.not_mem_nil c)
      | cons c2 cs3 =>
        rw [interc_cons2, List.append_assoc]
        exact sub_append_of_right c0 (sub_append_of_right sep (ih c hc2))

theorem replaceL_decomp (p r : List Char) (hp : p ≠ []) (d : List Char) :
    ∃ cs : List (List Char), cs ≠ [] ∧ d = interc p cs ∧ replaceL p r d = interc r cs ∧
      ∀ c ∈ cs, ¬ p <:+: c := by
  suffices h : ∀ (n : Nat) (d : List Char), d.length ≤ n →
      ∃ cs : List (List Char), cs ≠ [] ∧ d = interc p cs ∧ replaceL p r d = interc r cs ∧
        ∀ c ∈ cs, ¬ p <:+: c from h d.length d (Nat.le_refl _)
  intro n
  induction n with
  | zero =>
    intro d hd
    have hdn : d = [] := List.eq_nil_of_length_eq_zero (Nat.le_zero.mp hd)
    subst hdn
    refine ⟨[[]], by simp, rfl, by rw [replaceL_nil]; rfl, ?_⟩
    intro c hc
    rcases List.mem_cons.mp hc with rfl | hc2
    · rw [List.infix_nil]; exact hp
    · exact absurd hc2 (List.not_mem_nil c)
  | succ n ih =>
    intro d hd
    cases d with
    | nil =>
      refine ⟨[[]], by simp, rfl, by rw [replaceL_nil]; rfl, ?_⟩
      intro c hc
      rcases List.mem_cons.mp hc with rfl | hc2
      · rw [List.infix_nil]; exact hp
      · exact absurd hc2 (List.not_mem_nil c)
    | cons c rest =>
      simp only [List.length_cons] at hd
      by_cases hm : p.isPrefixOf (c :: rest) = true
      · have hpre : p <+: c :: rest := List.isPrefixOf_iff_prefix.mp hm
        obtain ⟨t, ht⟩ := hpre
        have hlp : 1 ≤ p.length := by
          cases p with
          | nil => exact absurd rfl hp
          | cons a p2 => simp
        have htl : rest.drop (p.length - 1) = t := by
          cases p with
          | nil => exact absurd rfl hp
          | cons a p2 =>
            rw [List.cons_append] at ht
            obtain ⟨hac, hrest⟩ := List.cons.injEq a (p2 ++ t) c rest ▸ ht
            simp only [List.length_cons, Nat.add_sub_cancel]
            rw [← hrest, List.drop_left]
        have hlt : t.length ≤ n := by
          have hlen := congrArg List.length ht
          simp only [List.length_append, List.length_cons] at hlen
          omega
        obtain ⟨cs2, hne2, hdec2, hrep2, hch2⟩ := ih t hlt
        obtain ⟨c0, cs3, rfl⟩ := List.exists_cons_of_ne_nil hne2
        refine ⟨[] :: c0 :: cs3, by simp, ?_, ?_, ?_⟩
        · rw [interc_cons2]
          simp only [List.nil_append]
          rw [← hdec2]
          exact ht.symm
        · rw [replaceL_cons_pos r hm, htl, hrep2, interc_cons2]
          simp
        · intro x hx
          rcases List.mem_cons.mp hx with rfl | hx2
          · rw [List.infix_nil]; exact hp
          · exact hch2 x hx2
      · have hlt : rest.length ≤ n := by omega
        obtain ⟨cs2, hne2, hdec2, hrep2, hch2⟩ := ih rest hlt
        obtain ⟨c0, cs3, rfl⟩ := List.exists_cons_of_ne_nil hne2
        have hc0 : c0 <+: rest := hdec2 ▸ head_pre_interc p c0 cs3
        refine ⟨(c :: c0) :: cs3, by simp, ?_, ?_, ?_⟩
        · cases cs3 with
          | nil =>
            rw [interc_single] at hdec2 ⊢
            rw [hdec2]
          | cons y cs4 =>
            rw [interc_cons2] at hdec2 ⊢
            rw [List.cons_append, List.cons_append, ← hdec2]
        · rw [replaceL_cons_neg r hm]
          cases cs3 with
          | nil =>
            rw [interc_single] at hrep2 ⊢
            rw [hrep2]
          | cons y cs4 =>
            rw [interc_cons2] at hrep2 ⊢
            rw [List.cons_append, List.cons_append, ← hrep2]
        · intro x hx
          rcases List.mem_cons.mp hx with rfl | hx2
          · intro hinf
            rcases List.infix_cons_iff.mp hinf with hpre2 | hinf2
            · obtain ⟨u, hu⟩ := hc0
              have hcc : (c :: c0 : List Char) <+: c :: rest := ⟨u, by rw [← hu]; rfl⟩
              exact hm (List.isPrefixOf_iff_prefix.mpr (hpre2.trans hcc))
            · exact hch2 c0 (List.mem_cons_self c0 cs3) hinf2
          · exact hch2 x (List.mem_cons_of_mem c0 hx2)

theorem sub_interc {r q : List Char}
    (h1 : ¬ q <:+: r) (h2 : ¬ r <:+: q)
    (h3 : ∀ s : List Char, s <:+ r → s ≠ [] → ¬ s <+: q)
    (h4 : ∀ s : List Char, s <+: r → s ≠ [] → ¬ s <:+ q) :
    ∀ cs : List (List Char), q <:+: interc r cs → ∃ c ∈ cs, q <:+: c := by
  intro cs
  induction cs with
  | nil =>
    intro h
    rw [show interc r ([] : List (List Char)) = [] from rfl, List.infix_nil] at h
    subst h
    exact absurd ⟨[], r, rfl⟩ h1
  | cons c cs2 ih =>
    cases cs2 with
    | nil =>
      intro h
      rw [interc_single] at h
      exact ⟨c, List.mem_cons_self c [], h⟩
    | cons y t =>
      intro h
      rw [interc_cons2, List.append_assoc] at h
      rcases sub_append_cases h with hA | hB | ⟨q₁, q₂, rfl, hn1, hn2, hsufA, hpreB⟩
      · exact ⟨c, List.mem_cons_self c (y :: t), hA⟩
      · rcases sub_append_cases hB with hR | hI | ⟨q₁, q₂, rfl, hm1, hm2, hsufR, hpreI⟩
        · exact absurd hR h1
        · obtain ⟨x, hx, hqx⟩ := ih hI
          exact ⟨x, List.mem_cons_of_mem c hx, hqx⟩
        · exact absurd (List.prefix_append q₁ q₂) (h3 q₁ hsufR hm1)
      · rcases pre_append_cases hpreB with hq2r | ⟨q₃, rfl, hq₃⟩
        · exact absurd ⟨q₁, rfl⟩ (h4 q₂ hq2r hn2)
        · exact absurd ⟨q₁, q₃, by simp [List.append_assoc]⟩ h2

theorem replaceL_avoid {p r q : List Char} (hp : p ≠ [])
    (h1 : ¬ q <:+: r) (h2 : ¬ r <:+: q)
    (h3 : ∀ s : List Char, s <:+ r → s ≠ [] → ¬ s <+: q)
    (h4 : ∀ s : List Char, s <+: r → s ≠ [] → ¬ s <:+ q)
    (d : List Char) (hd : q = p ∨ ¬ q <:+: d) :
    ¬ q <:+: replaceL p r d := by
  obtain ⟨cs, hne, hdec, hrep, hch⟩ := replaceL_decomp p r hp d
  rw [hrep]
  intro hq
  obtain ⟨c, hc, hqc⟩ := sub_interc h1 h2 h3 h4 cs hq
  rcases hd with rfl | hnd
  · exact hch c hc hqc
  · exact hnd (hdec ▸ sub_trans hqc (mem_interc_sub p cs c hc))

theorem foldl_noop {rs : List (List Char × List Char)} {d : List Char}
    (h : ∀ pr ∈ rs, ¬ pr.1 <:+: d) : rs.foldl applyRule d = d := by
  induction rs with
  | nil => rfl
  | cons pr rs2 ih =>
    rw [List.foldl_cons,
      show applyRule d pr = d from replaceL_of_not_sub pr.2 (h pr (List.mem_cons_self pr rs2))]
    exact ih (fun x hx => h x (List.mem_cons_of_mem pr hx))

theorem foldl_avoid {q : List Char} :
    ∀ (rs : List (List Char × List Char)) (d : List Char),
      (∀ pr ∈ rs, pairOK q pr = true) → ¬ q <:+: d → ¬ q <:+: rs.foldl applyRule d := by
  intro rs
  induction rs with
  | nil => intro d _ hd; simpa using hd
  | cons pr rs2 ih =>
    intro d hall hd
    rw [List.foldl_cons]
    apply ih _ (fun x hx => hall x (List.mem_cons_of_mem pr hx))
    obtain ⟨hp, h1, h2, h3, h4⟩ := pairOK_spec (hall pr (List.mem_cons_self pr rs2))
    exact replaceL_avoid hp h1 h2 h3 h4 d (Or.inr hd)

theorem pipeline_avoids {q rrep : List Char} (rsa rsb : List (List Char × List Char))
    (hsplit : rules = rsa ++ (q, rrep) :: rsb)
    (hself : pairOK q (q, rrep) = true)
    (hrest : ∀ pr ∈ rsb, pairOK q pr = true) :
    ∀ d : List Char, ¬ q <:+: pipeline d := by
  intro d
  show ¬ q <:+: rules.foldl applyRule d
  rw [hsplit, List.foldl_append, List.foldl_cons]
  apply foldl_avoid rsb _ hrest
  obtain ⟨hp, h1, h2, h3, h4⟩ := pairOK_spec hself
  exact replaceL_avoid hp h1 h2 h3 h4 _ (Or.inl rfl)

set_option maxRecDepth 1000000
set_option maxHeartbeats 2000000

theorem avoidPat01 (d : List Char) : ¬ pat01.data <:+: pipeline d :=
  @pipeline_avoids (pat01.data) (rep01.data) (rules.take 0) (rules.drop 1) rfl
    (by decide) (by decide) d

theorem avoidPat02 (d : List Char) : ¬ pat02.data <:+: pipeline d :=
  @pipeline_avoids (pat02.data) (rep02.data) (rules.take 1) (rules.drop 2) rfl
    (by decide) (by decide) d

theorem avoidPat03 (d : List Char) : ¬ pat03.data <:+: pipeline d :=
  @pipeline_avoids (pat03.data) (rep03.data) (rules.take 2) (rules.drop 3) rfl
    (by decide) (by decide) d

theorem avoidPat04 (d : List Char) : ¬ pat04.data <:+: pipeline d :=
  @pipeline_avoids (pat04.data) (rep04.data) (rules.take 3) (rules.drop 4) rfl
    (by decide) (by decide) d

theorem avoidPat05 (d : List Char) : ¬ pat05.data <:+: pipeline d :=
  @pipeline_avoids (pat05.data) (rep05.data) (rules.take 4) (rules.drop 5) rfl
    (by decide) (by decide) d

theorem avoidPat06 (d : List Char) : ¬ pat06.data <:+: pipeline d :=
  @pipeline_avoids (pat06.data) (rep06.data) (rules.take 5) (rules.drop 6) rfl
    (by decide) (by decide) d

theorem avoidPat07 (d : List Char) : ¬ pat07.data <:+: pipeline d :=
  @pipeline_avoids (pat07.data) (rep07.data) (rules.take 6) (rules.drop 7) rfl
    (by decide) (by decide) d

theorem avoidPat08 (d : List Char) : ¬ pat08.data <:+: pipeline d :=
  @pipeline_avoids (pat08.data) (rep08.data) (rules.take 7) (rules.drop 8) rfl
    (by decide) (by decide) d

theorem avoidPat09 (d : List Char) : ¬ pat09.data <:+: pipeline d :=
  @pipeline_avoids (pat09.data) (rep09.data) (rules.take 8) (rules.drop 9) rfl
    (by decide) (by decide) d

theorem avoidPat10 (d : List Char) : ¬ pat10.data <:+: pipeline d :=
  @pipeline_avoids (pat10.data) (rep10.data) (rules.take 9) (rules.drop 10) rfl
    (by decide) (by decide) d

theorem avoidPat11 (d : List Char) : ¬ pat11.data <:+: pipeline d :=
  @pipeline_avoids (pat11.data) (rep11.data) (rules.take 10) (rules.drop 11) rfl
    (by decide) (by decide) d

theorem avoidPat12 (d : List Char) : ¬ pat12.data <:+: pipeline d :=
  @pipeline_avoids (pat12.data) (rep12.data) (rules.take 11) (rules.drop 12) rfl
    (by decide) (by decide) d

theorem avoidPat13 (d : List Char) : ¬ pat13.data <:+: pipeline d :=
  @pipeline_avoids (pat13.data) (rep13.data) (rules.take 12) (rules.drop 13) rfl
    (by decide) (by decide) d

theorem avoidPat14 (d : List Char) : ¬ pat14.data <:+: pipeline d :=
  @pipeline_avoids (pat14.data) (rep14.data) (rules.take 13) (rules.drop 14) rfl
    (by decide) (by decide) d

theorem avoidPat15 (d : List Char) : ¬ pat15.data <:+: pipeline d :=
  @pipeline_avoids (pat15.data) (rep15.data) (rules.take 14) (rules.drop 15) rfl
    (by decide) (by decide) d
/-- C1: the rewrite pipeline is idempotent: applying the full ordered rule
sequence a second time leaves the result of the first application unchanged,
for every input document. -/
theorem pipeline_idempotent (d : List Char) : pipeline (pipeline d) = pipeline d := by
  have hall : ∀ pr ∈ rules, ¬ pr.1 <:+: pipeline d := by
    intro pr hpr
    simp only [rules, List.mem_cons, List.not_mem_nil, or_false] at hpr
    rcases hpr with rfl|rfl|rfl|rfl|rfl|rfl|rfl|rfl|rfl|rfl|rfl|rfl|rfl|rfl|rfl
    exacts [avoidPat01 d, avoidPat02 d, avoidPat03 d, avoidPat04 d, avoidPat05 d,
      avoidPat06 d, avoidPat07 d, avoidPat08 d, avoidPat09 d, avoidPat10 d,
      avoidPat11 d, avoidPat12 d, avoidPat13 d, avoidPat14 d, avoidPat15 d]
  exact foldl_noop hall

/-- C10: for every input document the final output contains no occurrence of
the substring data-tooltip-desc: the last rule replaces every occurrence and
no replacement can recreate one across replacement boundaries. -/
theorem no_desc_in_output (d : List Char) : containsSub pat15.data (pipeline d) = false :=
  Bool.eq_false_iff.mpr
    (fun hc => avoidPat15 d ((containsSub_iff pat15.data (pipeline d)).mp hc))

theorem updateHtml_eq : ∀ d : List Char, updateHtml d = pipeline d := by
  intro d
  show updateHtml d = rules.foldl applyRule d
  simp only [rules, List.foldl_cons, List.foldl_nil, applyRule]
  rfl

/-- C3: for every input document, the program output (the chain of fifteen
successive reassignments, each a leftmost non-overlapping replace-all on the
current state) equals the fold of the ordered rule list over the document. -/
theorem pipeline_eq_rules_fold : ∀ d : List Char, updateHtml d = pipeline d :=
  updateHtml_eq

/-- C2: the replacement sequence is order sensitive: there is an input for
which running the generic data-tooltip-desc sweep before the
context-specific rules produces a different final document than running the
rules in program order, where the sweep is last. -/
theorem sweep_order_sensitive : ∃ d : List Char, pipelineSweepFirst d ≠ pipeline d :=
  ⟨pat03.data, fun h => absurd (congrArg List.length h) (by decide)⟩

/-- C6: no-match safety: a document in which no search literal of any rule
occurs passes through the whole pipeline unchanged, and a single rule whose
search literal does not occur in the current document leaves it unchanged. -/
theorem no_match_safety :
    (∀ d : List Char, (∀ pr ∈ rules, ¬ pr.1 <:+: d) → pipeline d = d) ∧
    (∀ p r d : List Char, ¬ p <:+: d → replaceL p r d = d) :=
  ⟨fun _ h => foldl_noop h, fun _ r _ h => replaceL_of_not_sub r h⟩

theorem no_match_safety_witness :
    pipeline ("hello world".data) = "hello world".data ∧
    replaceL ("q".data) ("z".data) ("ab".data) = "ab".data :=
  ⟨no_match_safety.1 ("hello world".data) (by decide),
   no_match_safety.2 ("q".data) ("z".data) ("ab".data) (by decide)⟩

/-- C8: the only failure mode is an I/O or decoding error surfaced by the
read or write; it propagates unchanged with no handler, the pure rewrite
stage itself always succeeds, and when the failure happens at the read the
target file keeps its prior contents. -/
theorem error_propagation :
    (∀ e : IOErr, runProgram (Except.error e) = Except.error e) ∧
    (∀ h : List Char, runProgram (Except.ok h) = Except.ok (pipeline h)) ∧
    (∀ (initial : List Char) (e : IOErr), finalFile initial (Except.error e) = initial) :=
  ⟨fun _ => rfl, fun _ => rfl, fun _ _ => rfl⟩

/-- C9: the script reads and writes one fixed hardcoded relative path, the
two paths are equal, both calls use the fixed utf-8 encoding, and the write
fully overwrites the prior contents. -/
theorem fixed_path_encoding :
    readPath = writePath ∧ readEncoding = writeEncoding ∧ readEncoding = "utf-8" ∧
    ∀ oldC newC : List Char, overwriteWith oldC newC = newC :=
  ⟨rfl, rfl, rfl, fun _ _ => rfl⟩

theorem replaceL_head_match {p : List Char} (r : List Char) (hp : p ≠ []) (b : List Char) :
    replaceL p r (p ++ b) = r ++ replaceL p r b := by
  cases p with
  | nil => exact absurd rfl hp
  | cons c p2 =>
    rw [List.cons_append]
    have hm : (c :: p2).isPrefixOf (c :: (p2 ++ b)) = true :=
      List.isPrefixOf_iff_prefix.mpr ⟨b, by simp⟩
    have hd : (p2 ++ b).drop ((c :: p2).length - 1) = b := by
      simp only [List.length_cons, Nat.add_sub_cancel]
      exact List.drop_left p2 b
    rw [replaceL_cons_pos r hm, hd]

theorem replaceL_skip {p r : List Char} :
    ∀ (a b : List Char), (∀ k, k < a.length → ¬ p <+: (a ++ b).drop k) →
      replaceL p r (a ++ b) = a ++ replaceL p r b := by
  intro a
  induction a with
  | nil => intro b _; simp
  | cons c a2 ih =>
    intro b h
    have h0 : ¬ p.isPrefixOf (c :: (a2 ++ b)) = true := by
      intro hc
      exact h 0 (by simp) (by simpa using List.isPrefixOf_iff_prefix.mp hc)
    rw [List.cons_append, replaceL_cons_neg r h0, ih b ?_]
    · rfl
    · intro k hk hc
      refine h (k + 1) (by simp only [List.length_cons]; omega) ?_
      rw [List.cons_append, List.drop_succ_cons]
      exact hc

theorem pipeline_single (p r : List Char) (rsa rsb : List (List Char × List Char))
    (hsplit : rules = rsa ++ (p, r) :: rsb)
    (hp : p ≠ [])
    (h1 : ∀ pr ∈ rsa, ¬ pr.1 <:+: p)
    (h2 : ∀ pr ∈ rsb, ¬ pr.1 <:+: r) :
    pipeline p = r := by
  show rules.foldl applyRule p = r
  rw [hsplit, List.foldl_append, foldl_noop h1, List.foldl_cons]
  have hstep : applyRule p (p, r) = r := by
    show replaceL p r p = r
    have := replaceL_head_match r hp ([] : List Char)
    rw [List.append_nil] at this
    rw [this, replaceL_nil, List.append_nil]
  rw [hstep]
  exact foldl_noop h2

/-- C4: for a document pre ++ lit ++ post where lit is the span BIO-ALGAE
HARVEST literal, lit occurs nowhere else, and no other rule matches (the
earlier rules checked on the input, the later rules on the rewritten
document), the pipeline replaces exactly that occurrence by the multi-field
tooltip span and leaves everything else unchanged. -/
theorem bio_algae_scenario (pre post : List Char)
    (h1 : ∀ pr ∈ rules.take 5, ¬ pr.1 <:+: pre ++ pat06.data ++ post)
    (h2 : ∀ pr ∈ rules.drop 6, ¬ pr.1 <:+: pre ++ rep06.data ++ post)
    (h3 : ∀ k, k < (pre ++ pat06.data ++ post).length →
        pat06.data <+: (pre ++ pat06.data ++ post).drop k → k = pre.length) :
    pipeline (pre ++ pat06.data ++ post) = pre ++ rep06.data ++ post := by
  have hp6 : pat06.data ≠ [] := by decide
  have h30 : pat06.data.length = 30 := by decide
  have hpost : ¬ pat06.data <:+: post := by
    rintro ⟨s, t, hst⟩
    have hd0 : (pre ++ pat06.data ++ post).drop (pre.length + pat06.data.length + s.length)
        = pat06.data ++ t := by
      rw [← hst,
        show pre ++ pat06.data ++ (s ++ pat06.data ++ t)
          = (pre ++ pat06.data ++ s) ++ (pat06.data ++ t) by simp [List.append_assoc]]
      exact List.drop_left' (by simp only [List.length_append]; try omega)
    have hocc : pat06.data <+: (pre ++ pat06.data ++ post).drop
        (pre.length + pat06.data.length + s.length) := by
      rw [hd0]; exact List.prefix_append _ _
    have hbound : pre.length + pat06.data.length + s.length
        < (pre ++ pat06.data ++ post).length := by
      have hlen := congrArg List.length hst
      simp only [List.length_append] at hlen ⊢
      omega
    have := h3 _ hbound hocc
    omega
  have e6 : replaceL pat06.data rep06.data (pre ++ pat06.data ++ post)
      = pre ++ rep06.data ++ post := by
    have hskip : ∀ k, k < pre.length →
        ¬ pat06.data <+: (pre ++ (pat06.data ++ post)).drop k := by
      intro k hk hc
      rw [← List.append_assoc] at hc
      have hk2 : k < (pre ++ pat06.data ++ post).length := by
        simp only [List.length_append]; omega
      have := h3 k hk2 hc
      omega
    calc replaceL pat06.data rep06.data (pre ++ pat06.data ++ post)
        = replaceL pat06.data rep06.data (pre ++ (pat06.data ++ post)) := by
          rw [List.append_assoc]
      _ = pre ++ replaceL pat06.data rep06.data (pat06.data ++ post) :=
          replaceL_skip pre (pat06.data ++ post) hskip
      _ = pre ++ (rep06.data ++ replaceL pat06.data rep06.data post) := by
          rw [replaceL_head_match rep06.data hp6 post]
      _ = pre ++ (rep06.data ++ post) := by
          rw [replaceL_of_not_sub rep06.data hpost]
      _ = pre ++ rep06.data ++ post := by rw [List.append_assoc]
  rw [← updateHtml_eq (pre ++ pat06.data ++ post)]
  unfold updateHtml
  rw [replaceL_of_not_sub rep01.data (h1 (pat01.data, rep01.data) (by decide)),
    replaceL_of_not_sub rep02.data (h1 (pat02.data, rep02.data) (by decide)),
    replaceL_of_not_sub rep03.data (h1 (pat03.data, rep03.data) (by decide)),
    replaceL_of_not_sub rep04.data (h1 (pat04.data, rep04.data) (by decide)),
    replaceL_of_not_sub rep05.data (h1 (pat05.data, rep05.data) (by decide)),
    e6,
    replaceL_of_not_sub rep07.data (h2 (pat07.data, rep07.data) (by decide)),
    replaceL_of_not_sub rep08.data (h2 (pat08.data, rep08.data) (by decide)),
    replaceL_of_not_sub rep09.data (h2 (pat09.data, rep09.data) (by decide)),
    replaceL_of_not_sub rep10.data (h2 (pat10.data, rep10.data) (by decide)),
    replaceL_of_not_sub rep11.data (h2 (pat11.data, rep11.data) (by decide)),
    replaceL_of_not_sub rep12.data (h2 (pat12.data, rep12.data) (by decide)),
    replaceL_of_not_sub rep13.data (h2 (pat13.data, rep13.data) (by decide)),
    replaceL_of_not_sub rep14.data (h2 (pat14.data, rep14.data) (by decide)),
    replaceL_of_not_sub rep15.data (h2 (pat15.data, rep15.data) (by decide))]

theorem bio_algae_scenario_witness : pipeline (pat06.data) = rep06.data := by
  have h := bio_algae_scenario [] [] (by decide) (by decide) (by decide)
  simpa using h

theorem head_of_pre {a : Char} {l q t : List Char} (h : q ++ t = a :: l) (hq : q ≠ []) :
    a ∈ q := by
  cases q with
  | nil => exact absurd rfl hq
  | cons b q2 =>
    rw [List.cons_append] at h
    have hb := ((List.cons.injEq b (q2 ++ t) a l).mp h).1
    rw [hb]
    exact List.mem_cons_self a q2

theorem drop_append_le {A B : List Char} {k : Nat} (hk : k ≤ A.length) :
    (A ++ B).drop k = A.drop k ++ B := by
  conv_lhs => rw [← List.take_append_drop k A, List.append_assoc]
  exact List.drop_left' (by rw [List.length_take]; omega)

theorem take_append_le {A B : List Char} {k : Nat} (hk : k ≤ A.length) :
    (A ++ B).take k = A.take k := by
  conv_lhs => rw [← List.take_append_drop k A, List.append_assoc]
  exact List.take_left' (by rw [List.length_take]; omega)

theorem desc_not_in_attr (x : List Char) (h3 : ¬ pat15.data <:+: x) :
    ¬ pat15.data <:+: ('=' :: '"' :: (x ++ ['"'])) := by
  have hq : '"' ∉ pat15.data := by decide
  have heq : '=' ∉ pat15.data := by decide
  have hne : pat15.data ≠ [] := by decide
  have h17 : pat15.data.length = 17 := by decide
  intro h
  rcases List.infix_cons_iff.mp h with hp | h
  · obtain ⟨t, ht⟩ := hp
    exact heq (head_of_pre ht hne)
  rcases List.infix_cons_iff.mp h with hp | h
  · obtain ⟨t, ht⟩ := hp
    exact hq (head_of_pre ht hne)
  rcases sub_append_cases h with hx | hquote | ⟨q₁, q₂, hsp2, hn1, hn2, hsuf, hpre2⟩
  · exact h3 hx
  · obtain ⟨s, t, hst⟩ := hquote
    have hlen := congrArg List.length hst
    simp only [List.length_append, List.length_cons, List.length_nil] at hlen
    omega
  · obtain ⟨u, hu⟩ := hpre2
    cases q₂ with
    | nil => exact hn2 rfl
    | cons e q₃ =>
      rw [List.cons_append] at hu
      have he := ((List.cons.injEq e (q₃ ++ u) '"' []).mp hu).1
      apply hq
      rw [hsp2, he]
      exact List.mem_append_right q₁ (List.mem_cons_self '"' q₃)

theorem sweep_step (pre x post : List Char)
    (h2 : ∀ k, k < (pre ++ pat15.data ++ ('=' :: '"' :: (x ++ ['"'])) ++ post).length →
        pat15.data <+: (pre ++ pat15.data ++ ('=' :: '"' :: (x ++ ['"'])) ++ post).drop k →
        pre.length ≤ k)
    (h3 : ¬ pat15.data <:+: x) :
    replaceL pat15.data rep15.data (pre ++ pat15.data ++ ('=' :: '"' :: (x ++ ['"'])) ++ post)
      = pre ++ rep15.data ++ ('=' :: '"' :: (x ++ ['"'])) ++ replaceL pat15.data rep15.data post := by
  have hp : pat15.data ≠ [] := by decide
  have h17 : pat15.data.length = 17 := by decide
  have hq : '"' ∉ pat15.data := by decide
  have hassoc : pre ++ pat15.data ++ ('=' :: '"' :: (x ++ ['"'])) ++ post
      = pre ++ (pat15.data ++ (('=' :: '"' :: (x ++ ['"'])) ++ post)) := by
    simp [List.append_assoc]
  have hsk1 : ∀ k, k < pre.length →
      ¬ pat15.data <+: (pre ++ (pat15.data ++ (('=' :: '"' :: (x ++ ['"'])) ++ post))).drop k := by
    intro k hk hc
    rw [← hassoc] at hc
    have hb : k < (pre ++ pat15.data ++ ('=' :: '"' :: (x ++ ['"'])) ++ post).length := by
      simp only [List.length_append]; omega
    have := h2 k hb hc
    omega
  have hsk2 : ∀ k, k < ('=' :: '"' :: (x ++ ['"'])).length →
      ¬ pat15.data <+: (('=' :: '"' :: (x ++ ['"'])) ++ post).drop k := by
    intro k hk hc
    have hk3 : k < x.length + 3 := by
      simpa only [List.length_cons, List.length_append, List.length_nil] using hk
    by_cases hcase : k + pat15.data.length ≤ ('=' :: '"' :: (x ++ ['"'])).length
    · have hcase3 : k + 17 ≤ x.length + 3 := by
        simpa only [h17, List.length_cons, List.length_append, List.length_nil] using hcase
      obtain ⟨t, ht⟩ := hc
      rw [drop_append_le (Nat.le_of_lt hk)] at ht
      have hlen : pat15.data.length ≤ (('=' :: '"' :: (x ++ ['"'])).drop k).length := by
        rw [List.length_drop, h17]
        simp only [List.length_cons, List.length_append, List.length_nil]
        omega
      have hpat : pat15.data = (('=' :: '"' :: (x ++ ['"'])).drop k).take pat15.data.length := by
        have h4 := congrArg (List.take pat15.data.length) ht
        rw [List.take_left, take_append_le hlen] at h4
        exact h4
      apply desc_not_in_attr x h3
      have hmid : pat15.data ++ (('=' :: '"' :: (x ++ ['"'])).drop k).drop pat15.data.length
          = ('=' :: '"' :: (x ++ ['"'])).drop k := by
        conv_rhs => rw [← List.take_append_drop pat15.data.length
          (('=' :: '"' :: (x ++ ['"'])).drop k)]
        rw [← hpat]
      refine ⟨('=' :: '"' :: (x ++ ['"'])).take k,
        (('=' :: '"' :: (x ++ ['"'])).drop k).drop pat15.data.length, ?_⟩
      rw [List.append_assoc, hmid, List.take_append_drop]
    · have hcase3 : ¬ (k + 17 ≤ x.length + 3) := by
        simpa only [h17, List.length_cons, List.length_append, List.length_nil] using hcase
      have hkle : k ≤ ('=' :: '"' :: x).length := by
        simp only [List.length_cons]
        omega
      obtain ⟨t, ht⟩ := hc
      have hsplit9 : ('=' :: '"' :: (x ++ ['"'])) ++ post
          = ('=' :: '"' :: x) ++ ('"' :: post) := by
        simp
      rw [hsplit9, drop_append_le hkle] at ht
      have hlt : (('=' :: '"' :: x).drop k).length < pat15.data.length := by
        rw [List.length_drop, h17]
        simp only [List.length_cons]
        omega
      have hdd := congrArg (List.drop (('=' :: '"' :: x).drop k).length) ht
      rw [drop_append_le (Nat.le_of_lt hlt), List.drop_left] at hdd
      cases hpd : pat15.data.drop (('=' :: '"' :: x).drop k).length with
      | nil =>
        have hl0 := congrArg List.length hpd
        rw [List.length_drop] at hl0
        simp only [List.length_nil] at hl0
        omega
      | cons e es =>
        rw [hpd, List.cons_append] at hdd
        have he := ((List.cons.injEq e (es ++ t) '"' post).mp hdd).1
        apply hq
        rw [← he]
        have hmem : e ∈ pat15.data.drop (('=' :: '"' :: x).drop k).length := by
          rw [hpd]
          exact List.mem_cons_self e es
        exact List.mem_of_mem_drop hmem
  calc replaceL pat15.data rep15.data (pre ++ pat15.data ++ ('=' :: '"' :: (x ++ ['"'])) ++ post)
      = replaceL pat15.data rep15.data
          (pre ++ (pat15.data ++ (('=' :: '"' :: (x ++ ['"'])) ++ post))) := by rw [← hassoc]
    _ = pre ++ replaceL pat15.data rep15.data
          (pat15.data ++ (('=' :: '"' :: (x ++ ['"'])) ++ post)) :=
        replaceL_skip pre _ hsk1
    _ = pre ++ (rep15.data ++ replaceL pat15.data rep15.data
          (('=' :: '"' :: (x ++ ['"'])) ++ post)) := by
        rw [replaceL_head_match rep15.data hp]
    _ = pre ++ (rep15.data ++ (('=' :: '"' :: (x ++ ['"'])) ++
          replaceL pat15.data rep15.data post)) := by
        rw [replaceL_skip _ _ hsk2]
    _ = pre ++ rep15.data ++ ('=' :: '"' :: (x ++ ['"'])) ++
          replaceL pat15.data rep15.data post := by
        simp [List.append_assoc]

/-- C5 counterexample: for the input data-tooltip-desc="data-tooltip-desc",
whose value text X is itself the marker literal and which no earlier rule
matches, the output does not contain data-tooltip-short="X" with X preserved
verbatim at that position: the sweep also rewrites the occurrence inside the
attribute value. -/
theorem desc_sweep_counterexample :
    (∀ pr ∈ rules.take 14,
      ¬ pr.1 <:+: ("data-tooltip-desc=\"data-tooltip-desc\"").data) ∧
    ¬ ("data-tooltip-short=\"data-tooltip-desc\"").data <+:
        pipeline (("data-tooltip-desc=\"data-tooltip-desc\"").data) := by
  constructor
  · decide
  · intro h
    have h1 := congrArg (List.take 34) (List.prefix_iff_eq_take.mp h)
    rw [List.take_take] at h1
    revert h1
    decide

/-- C5 amended: for a document pre ++ data-tooltip-desc="X" ++ post in which
no earlier rule matches, no marker occurrence starts before that one, and
the value text X itself contains no occurrence of the marker
data-tooltip-desc, the output contains data-tooltip-short="X" at that
position with X preserved verbatim. -/
theorem desc_sweep_preserves (pre x post : List Char)
    (h1 : ∀ pr ∈ rules.take 14,
        ¬ pr.1 <:+: pre ++ pat15.data ++ ('=' :: '"' :: (x ++ ['"'])) ++ post)
    (h2 : ∀ k, k < (pre ++ pat15.data ++ ('=' :: '"' :: (x ++ ['"'])) ++ post).length →
        pat15.data <+: (pre ++ pat15.data ++ ('=' :: '"' :: (x ++ ['"'])) ++ post).drop k →
        pre.length ≤ k)
    (h3 : ¬ pat15.data <:+: x) :
    ∃ post2 : List Char,
      pipeline (pre ++ pat15.data ++ ('=' :: '"' :: (x ++ ['"'])) ++ post)
        = pre ++ rep15.data ++ ('=' :: '"' :: (x ++ ['"'])) ++ post2 := by
  refine ⟨replaceL pat15.data rep15.data post, ?_⟩
  rw [← updateHtml_eq (pre ++ pat15.data ++ ('=' :: '"' :: (x ++ ['"'])) ++ post)]
  unfold updateHtml
  rw [replaceL_of_not_sub rep01.data (h1 (pat01.data, rep01.data) (by decide)),
    replaceL_of_not_sub rep02.data (h1 (pat02.data, rep02.data) (by decide)),
    replaceL_of_not_sub rep03.data (h1 (pat03.data, rep03.data) (by decide)),
    replaceL_of_not_sub rep04.data (h1 (pat04.data, rep04.data) (by decide)),
    replaceL_of_not_sub rep05.data (h1 (pat05.data, rep05.data) (by decide)),
    replaceL_of_not_sub rep06.data (h1 (pat06.data, rep06.data) (by decide)),
    replaceL_of_not_sub rep07.data (h1 (pat07.data, rep07.data) (by decide)),
    replaceL_of_not_sub rep08.data (h1 (pat08.data, rep08.data) (by decide)),
    replaceL_of_not_sub rep09.data (h1 (pat09.data, rep09.data) (by decide)),
    replaceL_of_not_sub rep10.data (h1 (pat10.data, rep10.data) (by decide)),
    replaceL_of_not_sub rep11.data (h1 (pat11.data, rep11.data) (by decide)),
    replaceL_of_not_sub rep12.data (h1 (pat12.data, rep12.data) (by decide)),
    replaceL_of_not_sub rep13.data (h1 (pat13.data, rep13.data) (by decide)),
    replaceL_of_not_sub rep14.data (h1 (pat14.data, rep14.data) (by decide)),
    sweep_step pre x post h2 h3]

theorem desc_sweep_preserves_witness :
    ∃ post2 : List Char,
      pipeline (("A ").data ++ pat15.data ++ ('=' :: '"' :: (("hello").data ++ ['"'])) ++ [])
        = ("A ").data ++ rep15.data ++ ('=' :: '"' :: (("hello").data ++ ['"'])) ++ post2 :=
  desc_sweep_preserves ("A ").data ("hello").data [] (by decide) (by decide) (by decide)

/-- C7 counterexample: the pretty-printed and flattened variants of the
Isolation button are not migrated to byte-identical fragments: the two
replacement texts differ in their whitespace (the multi-line replacement
keeps a trailing space and an indented line break). -/
theorem variant_coverage_counterexample : pipeline (pat08.data) ≠ pipeline (pat09.data) := by
  rw [pipeline_single pat08.data rep08.data (rules.take 7) (rules.drop 8) rfl
      (by decide) (by decide) (by decide),
    pipeline_single pat09.data rep09.data (rules.take 8) (rules.drop 9) rfl
      (by decide) (by decide) (by decide)]
  decide

/-- C7 amended: for each dual-variant target (Sector Stability, Hazard
Engine, Isolation button, Sector Mode, Inspection Mode) both the
pretty-printed and the flattened variant are present in the rule list, so
both replacements are attempted on every run, and the two variants are
migrated to fragments that agree after collapsing every whitespace run to a
single space. -/
theorem variant_coverage_normalized :
    (normWS (pipeline (pat02.data)) = normWS (pipeline (pat03.data)) ∧
      (pat02.data, rep02.data) ∈ rules ∧ (pat03.data, rep03.data) ∈ rules) ∧
    (normWS (pipeline (pat04.data)) = normWS (pipeline (pat05.data)) ∧
      (pat04.data, rep04.data) ∈ rules ∧ (pat05.data, rep05.data) ∈ rules) ∧
    (normWS (pipeline (pat08.data)) = normWS (pipeline (pat09.data)) ∧
      (pat08.data, rep08.data) ∈ rules ∧ (pat09.data, rep09.data) ∈ rules) ∧
    (normWS (pipeline (pat11.data)) = normWS (pipeline (pat12.data)) ∧
      (pat11.data, rep11.data) ∈ rules ∧ (pat12.data, rep12.data) ∈ rules) ∧
    (normWS (pipeline (pat13.data)) = normWS (pipeline (pat14.data)) ∧
      (pat13.data, rep13.data) ∈ rules ∧ (pat14.data, rep14.data) ∈ rules) := by
  refine ⟨⟨?_, by decide, by decide⟩, ⟨?_, by decide, by decide⟩, ⟨?_, by decide, by decide⟩,
    ⟨?_, by decide, by decide⟩, ⟨?_, by decide, by decide⟩⟩
  · rw [pipeline_single pat02.data rep02.data (rules.take 1) (rules.drop 2) rfl
        (by decide) (by decide) (by decide),
      pipeline_single pat03.data rep03.data (rules.take 2) (rules.drop 3) rfl
        (by decide) (by decide) (by decide)]
    decide
  · rw [pipeline_single pat04.data rep04.data (rules.take 3) (rules.drop 4) rfl
        (by decide) (by decide) (by decide),
      pipeline_single pat05.data rep05.data (rules.take 4) (rules.drop 5) rfl
        (by decide) (by decide) (by decide)]
    decide
  · rw [pipeline_single pat08.data rep08.data (rules.take 7) (rules.drop 8) rfl
        (by decide) (by decide) (by decide),
      pipeline_single pat09.data rep09.data (rules.take 8) (rules.drop 9) rfl
        (by decide) (by decide) (by decide)]
    decide
  · rw [pipeline_single pat11.data rep11.data (rules.take 10) (rules.drop 11) rfl
        (by decide) (by decide) (by decide),
      pipeline_single pat12.data rep12.data (rules.take 11) (rules.drop 12) rfl
        (by decide) (by decide) (by decide)]
    decide
  · rw [pipeline_single pat13.data rep13.data (rules.take 12) (rules.drop 13) rfl
        (by decide) (by decide) (by decide),
      pipeline_single pat14.data rep14.data (rules.take 13) (rules.drop 14) rfl
        (by decide) (by decide) (by decide)]
    decide
